import Mathlib

/-!
Shallow embedding of django-mongoforms (mongoforms/forms.py) and proofs
about its field-collection metaclass, form initialisation, saving,
unique validation and formset construction.

Conventions of the embedding:
* Python dicts and django SortedDict are modelled as association lists
  (`AList`) with first-occurrence key replacement on assignment, which
  matches dict/SortedDict item assignment (value replaced, key keeps its
  position; fresh keys are appended).
* Python values that flow through the code are modelled by `PyVal`.
* Modules of this repository that are not part of the source under
  analysis (fields.py, utils.py) enter only through parameters: the
  formfield generator is a function argument, iter_valid_fields is the
  list `validFields` carried by the Meta model, and
  mongoengine_validate_wrapper is the opaque constructor `CleanFn.wrap`.
-/

namespace Mongoforms

/-- A Python runtime value, as far as forms.py inspects it: None, a
string, a referenced document (exposing a string id), or an integer. -/
inductive PyVal where
  | vNone : PyVal
  | vStr (s : String) : PyVal
  | vDocRef (id : String) : PyVal
  | vInt (n : Int) : PyVal
deriving DecidableEq, Repr

/-- Python truthiness for the values of `PyVal`; document instances are
truthy objects. -/
def pyTruthy : PyVal → Bool
  | .vNone => false
  | .vStr s => !(s == "")
  | .vDocRef _ => true
  | .vInt n => !(n == 0)

/-- The expression str(field_data.id) of forms.py line 111; attribute
access .id is modelled for referenced documents, which is the only shape
a ReferenceField stores (the call site has already checked truthiness, so
vNone never reaches the attribute access). -/
def pyRefIdStr : PyVal → PyVal
  | .vDocRef i => .vStr i
  | v => v

/-- Lowercasing of the characters of a string, one by one. -/
def lowerChars : List Char → List Char
  | [] => []
  | c :: cs => Char.toLower c :: lowerChars cs

/-- The expression name.lower() on ASCII identifiers. -/
def pyLower (s : String) : String :=
  ⟨lowerChars s.data⟩

/-- An association list keyed by strings: the model of a Python dict or a
django SortedDict as used by forms.py. -/
abbrev AList (α : Type) : Type := List (String × α)

namespace AList

/-- Dictionary lookup d[k] (none when the key is missing). -/
def lookup {α : Type} : AList α → String → Option α
  | [], _ => none
  | p :: ps, k => if p.1 = k then some p.2 else lookup ps k

/-- The keys of the dictionary, in order. -/
def keys {α : Type} (d : AList α) : List String :=
  List.map Prod.fst d

/-- Item assignment d[k] = v: replace the value at the first occurrence
of the key, keeping its position, or append a fresh key at the end.
This is the behaviour of both dict and django SortedDict assignment. -/
def insert {α : Type} : AList α → String → α → AList α
  | [], k, v => [(k, v)]
  | p :: ps, k, v => if p.1 = k then (k, v) :: ps else p :: insert ps k v

/-- d.update(ps): assign every pair of ps into d in order. Also the
SortedDict(pairs) constructor when d is empty. -/
def update {α : Type} (d : AList α) (ps : List (String × α)) : AList α :=
  List.foldl (fun d p => insert d p.1 p.2) d ps

/-- In-place mutation of the entry stored at a key, as in
doc_fields[name].clean = ... (the identity when the key is absent). -/
def mapAt {α : Type} (d : AList α) (k : String) (g : α → α) : AList α :=
  List.map (fun p => if p.1 = k then (p.1, g p.2) else p) d

end AList

/-- The clean callable carried by a django form field. `base i` is an
unwrapped clean method (identified by a tag), and `wrap c v` is the
closure returned by mongoengine_validate_wrapper(c, validate) where v
tags the document field validator passed as field._validate. The wrapper
itself lives in utils.py, outside the analysed source, so it stays
opaque here. -/
inductive CleanFn where
  | base (id : Nat) : CleanFn
  | wrap (inner : CleanFn) (validateId : Nat) : CleanFn
deriving DecidableEq, Repr

/-- A django forms.Field instance, with the attributes forms.py reads:
the creation_counter used for sorting, the label (lowercased to key
dict-generated sub-fields) and the clean method. -/
structure FormField where
  creation_counter : Nat
  label : String
  clean : CleanFn
deriving DecidableEq, Repr

/-- A mongoengine document field as seen by the metaclass: only its
_validate method (tagged by a number) is consumed there. -/
structure DocField where
  validateId : Nat
deriving DecidableEq, Repr

/-- The value returned by formfield_generator.generate(name, field):
either a single form field or a dict of sub-fields (modelled in
itervalues order). The generator lives in fields.py, outside the
analysed source, so it is a parameter of the embedding. -/
inductive GenResult where
  | single (f : FormField) : GenResult
  | many (fs : List FormField) : GenResult
deriving DecidableEq, Repr

/-- A class-dict entry handed to the metaclass: either a declared
forms.Field instance or any other attribute (tagged by a number). -/
inductive ClassAttr where
  | fieldAttr (f : FormField) : ClassAttr
  | other (tag : Nat) : ClassAttr
deriving DecidableEq, Repr

/-- True exactly on the attributes that are forms.Field instances. -/
def isFieldAttr : ClassAttr → Bool
  | .fieldAttr _ => true
  | .other _ => false

/-- The inner Meta class as far as the metaclass reads it once the
document check has passed: the pairs yielded by
iter_valid_fields(Meta), in iteration order (iter_valid_fields lives in
utils.py, outside the analysed source). -/
structure MetaInfo where
  validFields : List (String × DocField)
deriving Repr

/-- What MongoFormMetaClass.__new__ produces that the claims inspect:
the base_fields dict written into the class and the class attribute
dict after the declared form fields have been popped out of it. -/
structure NewCls where
  base_fields : AList FormField
  attrsRest : AList ClassAttr
deriving Repr

/-- The comparison key of forms.py line 25: sort form fields by their
creation_counter (cmp on the counters, ascending). -/
def fLeB (a b : String × FormField) : Prop :=
  a.2.creation_counter ≤ b.2.creation_counter

instance : DecidableRel fLeB := fun a b =>
  inferInstanceAs (Decidable (a.2.creation_counter ≤ b.2.creation_counter))

instance : IsTotal (String × FormField) fLeB :=
  ⟨fun a b => Nat.le_total a.2.creation_counter b.2.creation_counter⟩

instance : IsTrans (String × FormField) fLeB :=
  ⟨fun _ _ _ hab hbc => Nat.le_trans hab hbc⟩

/-- The comprehension of forms.py lines 23-24: the class-dict entries
that are forms.Field instances, in class-dict iteration order (the pop
of each such entry is modelled separately by a filter on the rest). -/
def declaredFieldsOf (attrs : AList ClassAttr) : List (String × FormField) :=
  attrs.filterMap fun p =>
    match p.2 with
    | .fieldAttr f => some (p.1, f)
    | .other _ => none

/-- The base_fields items of the base classes, in declaration order. -/
def basesFlat (bases : List (AList FormField)) : List (String × FormField) :=
  bases.foldr (fun b acc => b ++ acc) []

/-- Lines 22-33 of forms.py: pull the forms.Field attributes out of the
class dict, sort them by creation_counter (list.sort is a stable
ascending sort, modelled by the stable insertionSort), put the
base_fields of the base classes in front (bases are walked reversed and
prepended, so they end up in declaration order), and build the
SortedDict. Only bases that have base_fields appear in `bases`. -/
def collectBaseFields (attrs : AList ClassAttr)
    (bases : List (AList FormField)) : AList FormField :=
  let flds := List.insertionSort fLeB (declaredFieldsOf attrs)
  let flds := (bases.reverse).foldl (fun fs b => b ++ fs) flds
  AList.update [] flds

/-- The body of the loop at lines 48-58 of forms.py for one document
field: a dict result adds every sub-field keyed by its lowercased
label; a single result is stored under the document field name and then
has its clean method wrapped in place with mongoengine_validate_wrapper
around field._validate. -/
def processDocField (gen : String → DocField → GenResult)
    (d : AList FormField) (n : String) (df : DocField) : AList FormField :=
  match gen n df with
  | .many fs => fs.foldl (fun d f => AList.insert d (pyLower f.label) f) d
  | .single f =>
      AList.mapAt (AList.insert d n f) n
        (fun g => { g with clean := .wrap g.clean df.validateId })

/-- MongoFormMetaClass.__new__ (forms.py lines 20-67). `meta` is some m
exactly when Meta is present with a document attribute that subclasses
BaseDocument; in that case the generated document fields are built and
then updated with the collected base_fields, so that collected fields
win name clashes. -/
def metaclassNew (gen : String → DocField → GenResult)
    (attrs : AList ClassAttr) (bases : List (AList FormField))
    (meta : Option MetaInfo) : NewCls :=
  let base := collectBaseFields attrs bases
  let rest := attrs.filter fun p => !(isFieldAttr p.2)
  match meta with
  | none => { base_fields := base, attrsRest := rest }
  | some m =>
      let doc := m.validFields.foldl
        (fun d p => processDocField gen d p.1 p.2) []
      { base_fields := AList.update doc base, attrsRest := rest }

/-- The single generated field stored by the metaclass: the generator
output with its clean method wrapped around the document field
validator. -/
def wrapField (f : FormField) (df : DocField) : FormField :=
  { f with clean := .wrap f.clean df.validateId }

/-- The key/value pairs a document field contributes to doc_fields, in
insertion order. -/
def insertsFor (gen : String → DocField → GenResult)
    (n : String) (df : DocField) : List (String × FormField) :=
  match gen n df with
  | .many fs => fs.map fun f => (pyLower f.label, f)
  | .single f => [(n, wrapField f df)]

/-- All doc_fields insertions made by the metaclass loop, flattened. -/
def docInserts (gen : String → DocField → GenResult)
    (vfs : List (String × DocField)) : List (String × FormField) :=
  vfs.flatMap fun p => insertsFor gen p.1 p.2

/-- One entry of a document class _fields (or _dfields) dict, with the
attributes forms.py reads: whether it is a ReferenceField instance and
whether it carries unique=True. -/
structure DocClsField where
  isRef : Bool
  unique : Bool
deriving DecidableEq, Repr

/-- The mongoengine document class attached to Meta.document, reduced to
what MongoForm.__init__ and validate_unique read: the _dynamic flag, the
_fields dict and the optional _dfields dict of dynamic documents. -/
structure DocSchema where
  dynamic : Bool
  flds : AList DocClsField
  dflds : Option (AList DocClsField)
deriving DecidableEq, Repr

/-- A mongoengine document instance: its class, its attribute values
(present attributes, for hasattr/getattr), the _adding flag written by
the form, a marker for instances freshly constructed by the form, and a
counter of .save() calls standing for persistence effects. -/
structure DocInstance where
  cls : DocSchema
  attrs : AList PyVal
  adding : Bool
  isNew : Bool
  savedCount : Nat
deriving DecidableEq, Repr

/-- The expression self._meta.document() of forms.py line 87: a freshly
constructed document of the given class. -/
def newDocument (dc : DocSchema) : DocInstance :=
  { cls := dc, attrs := [], adding := false, isNew := true, savedCount := 0 }

/-- The per-field value stored into object_data by the loop at forms.py
lines 96-112, or none when the loop continues without storing: skip when
the instance lacks the attribute, take _fields for non-dynamic
documents and _dfields for dynamic ones (skipping dynamic documents
without _dfields), and for a ReferenceField entry replace truthy data by
str(data.id). -/
def entryVal (dc : DocSchema) (inst : DocInstance) (n : String) :
    Option PyVal :=
  match AList.lookup inst.attrs n with
  | none => none
  | some fd =>
      match (if !dc.dynamic then some dc.flds else dc.dflds) with
      | none => none
      | some fl =>
          some (match AList.lookup fl n with
            | some cf =>
                if cf.isRef then (if pyTruthy fd then pyRefIdStr fd else fd)
                else fd
            | none => fd)

/-- The object_data built from an existing instance (forms.py lines
93-112): fold of the per-field loop over iter_valid_fields. -/
def objectDataOf (dc : DocSchema) (vfs : List String)
    (inst : DocInstance) : AList PyVal :=
  vfs.foldl (fun od n =>
    match AList.lookup inst.attrs n with
    | none => od
    | some fd =>
        match (if !dc.dynamic then some dc.flds else dc.dflds) with
        | none => od
        | some fl =>
            AList.insert od n
              (match AList.lookup fl n with
                | some cf =>
                    if cf.isRef then
                      (if pyTruthy fd then pyRefIdStr fd else fd)
                    else fd
                | none => fd)) []

/-- Lines 113-115 of forms.py: merge caller-supplied initial data over
the object data when it is given. -/
def applyInitialData (od : AList PyVal) :
    Option (AList PyVal) → AList PyVal
  | none => od
  | some il => AList.update od il

/-- The errors MongoForm.__init__ can raise before reaching the form
machinery: the explicit ValueError of line 86 when no document class is
specified, and the AttributeError that reading attributes of a missing
document class produces on the instance path. -/
inductive InitErr where
  | valueError : InitErr
  | attrError : InitErr
deriving DecidableEq, Repr

/-- MongoForm.__init__ (forms.py lines 73-119), reduced to the state the
claims inspect: the instance attached to the form and the initial data
handed to BaseForm.__init__. metaDoc is self._meta.document, vfs the
names yielded by iter_valid_fields(self._meta). -/
def mongoFormInit (metaDoc : Option DocSchema) (vfs : List String)
    (instOpt : Option DocInstance) (ini : Option (AList PyVal)) :
    Except InitErr (DocInstance × AList PyVal) :=
  match instOpt with
  | none =>
      match metaDoc with
      | none => .error .valueError
      | some dc =>
          let inst := newDocument dc
          let objData : AList PyVal := []
          let inst := { inst with adding := true }
          .ok (inst, applyInitialData objData ini)
  | some inst =>
      match metaDoc with
      | none => .error .attrError
      | some dc =>
          let inst := { inst with adding := false }
          let objData := objectDataOf dc vfs inst
          .ok (inst, applyInitialData objData ini)

/-- The expression self.cleaned_data.get(field_name) of forms.py line
184: dict.get defaults to None. -/
def cleanedGet (cleaned : AList PyVal) (n : String) : PyVal :=
  (AList.lookup cleaned n).getD .vNone

/-- MongoForm.save (forms.py lines 179-189): write
cleaned_data.get(name) onto the instance for every valid document
field, call instance.save() when commit is set, and return the
instance. -/
def mongoFormSave (vfs : List String) (cleaned : AList PyVal)
    (inst : DocInstance) (commit : Bool) : DocInstance :=
  let inst := vfs.foldl (fun i n =>
    { i with attrs := AList.insert i.attrs n (cleanedGet cleaned n) }) inst
  if commit then { inst with savedCount := inst.savedCount + 1 } else inst

/-- The names bound at module level in mongoforms/forms.py: the imports
of lines 1-9 and the module-level definitions. -/
def moduleNames : List String :=
  ["types", "forms", "EMPTY_VALUES", "SortedDict", "BaseDocument",
   "MongoFormFieldGenerator", "mongoengine_validate_wrapper",
   "iter_valid_fields", "ReferenceField", "BaseFormSet",
   "formset_factory", "__all__", "MongoFormMetaClass", "MongoForm",
   "documentform_factory", "BaseDocumentFormSet",
   "documentformset_factory"]

/-- The Python 2 builtins the module body may fall back to when a global
is missing. -/
def pyBuiltins : List String :=
  ["len", "getattr", "hasattr", "setattr", "isinstance", "issubclass",
   "super", "type", "object", "str", "unicode", "cmp", "ValueError",
   "AssertionError", "AttributeError", "dict", "list"]

/-- Python name resolution inside a function of forms.py: module
globals, then builtins. -/
def nameResolves (n : String) : Bool :=
  moduleNames.contains n || pyBuiltins.contains n

/-- The exception validate_unique can raise while building the
duplicate message. -/
inductive PyExc where
  | nameError (missing : String) : PyExc
deriving DecidableEq, Repr

/-- The global names evaluated by the message expression of forms.py
lines 169-172, in evaluation order: the translation callable is looked
up first. -/
def uniqueMessageNames : List String :=
  ["_", "unicode", "capfirst", "pretty_name"]

/-- Evaluating the duplicate message of lines 169-172: the first name in
evaluation order that does not resolve raises NameError. -/
def evalUniqueMessage : Except PyExc String :=
  match uniqueMessageNames.find? (fun n => !nameResolves n) with
  | some n => .error (.nameError n)
  | none => .ok "already-exists-message"

/-- The loop of MongoForm.validate_unique (forms.py lines 156-177):
for every unique, non-excluded field whose value also occurs on another
document (hasDup models len(qs) > 0 after the pk exclusion, the query
engine being external), build the message and record the error; the
accumulated error list is returned. -/
def validateUniqueAux (exclude : List String) (hasDup : String → Bool) :
    AList DocClsField → List String → Except PyExc (List String)
  | [], errs => .ok errs
  | p :: ps, errs =>
      if p.2.unique && !(exclude.contains p.1) then
        if hasDup p.1 then
          match evalUniqueMessage with
          | .error e => .error e
          | .ok _m => validateUniqueAux exclude hasDup ps (errs ++ [p.1])
        else validateUniqueAux exclude hasDup ps errs
      else validateUniqueAux exclude hasDup ps errs

/-- MongoForm.validate_unique over the _fields of the instance. -/
def validateUnique (instFields : AList DocClsField)
    (exclude : List String) (hasDup : String → Bool) :
    Except PyExc (List String) :=
  validateUniqueAux exclude hasDup instFields []

/-- BaseDocumentFormSet.__init__ (forms.py lines 230-239), reduced to
the keyword dict passed on to BaseFormSet.__init__: the pfxArg the
caller passed for the prefix parameter is overwritten by the lowercased
document class name before the defaults dict is built, and kwargs
cannot contain the key of a named parameter. iniData stands for
self.construct_initial(), which reads the external queryset. -/
def formSetInitKwargs (docName : String) (data files auto_id : PyVal)
    (pfxArg : Option PyVal) (iniData : PyVal)
    (kwargs : AList PyVal) : AList PyVal :=
  let _ := pfxArg
  let pfx := pyLower docName
  let defaults : AList PyVal :=
    [("data", data), ("files", files), ("auto_id", auto_id),
     ("prefix", .vStr pfx), ("initial", iniData)]
  AList.update defaults kwargs

/-- The object_data entries an existing instance contributes, as
key/value pairs in field order. -/
def entryPairs (dc : DocSchema) (inst : DocInstance)
    (vfs : List String) : List (String × PyVal) :=
  vfs.filterMap fun n => (entryVal dc inst n).map (fun v => (n, v))

/-- One step of a loop that conditionally stores a computed value under
the current key (used to restate the object_data loop). -/
def optInsertStep {α : Type} (h : String → Option α)
    (od : AList α) (n : String) : AList α :=
  match h n with
  | none => od
  | some v => AList.insert od n v

/-! Lemmas about the dictionary model. -/

theorem AList.update_nil {α : Type} (d : AList α) : update d [] = d := rfl

theorem AList.update_cons {α : Type} (d : AList α) (p : String × α)
    (ps : List (String × α)) :
    update d (p :: ps) = update (insert d p.1 p.2) ps := rfl

theorem AList.lookup_insert_self {α : Type} (d : AList α) (k : String) (v : α) :
    lookup (insert d k v) k = some v := by
  induction d with
  | nil => simp [insert, lookup]
  | cons p ps ih =>
      by_cases h : p.1 = k
      · simp [insert, h, lookup]
      · simp [insert, h, lookup, ih]

theorem AList.lookup_insert_ne {α : Type} (d : AList α) {k k' : String} (v : α)
    (h : k ≠ k') : lookup (insert d k v) k' = lookup d k' := by
  induction d with
  | nil => simp [insert, lookup, h]
  | cons p ps ih =>
      by_cases hp : p.1 = k
      · subst hp
        simp [insert, lookup, h, Ne.symm h, ih]
      · by_cases hp' : p.1 = k'
        · simp [insert, hp, lookup, hp', Ne.symm h]
        · simp [insert, hp, lookup, hp', ih]

theorem AList.lookup_update_notMem {α : Type} (d : AList α)
    (ps : List (String × α)) {k : String} (h : k ∉ List.map Prod.fst ps) :
    lookup (update d ps) k = lookup d k := by
  induction ps generalizing d with
  | nil => rfl
  | cons p ps ih =>
      simp only [List.map_cons, List.mem_cons] at h
      push_neg at h
      rw [update_cons, ih (insert d p.1 p.2) h.2,
        lookup_insert_ne d p.2 (Ne.symm h.1)]

theorem AList.lookup_update_mem {α : Type} (d : AList α)
    {ps : List (String × α)} {k : String} {v : α}
    (hnd : (List.map Prod.fst ps).Nodup) (hmem : (k, v) ∈ ps) :
    lookup (update d ps) k = some v := by
  induction ps generalizing d with
  | nil => cases hmem
  | cons p ps ih =>
      simp only [List.map_cons, List.nodup_cons] at hnd
      rcases List.mem_cons.mp hmem with h | h
      · rw [update_cons]
        have hk : k ∉ List.map Prod.fst ps := by
          have : p.1 = k := by rw [← h]
          exact this ▸ hnd.1
        rw [lookup_update_notMem (insert d p.1 p.2) ps hk, ← h]
        exact lookup_insert_self d k v
      · rw [update_cons]
        exact ih (insert d p.1 p.2) hnd.2 h

theorem AList.insert_eq_append {α : Type} (d : AList α) {k : String} (v : α)
    (h : k ∉ keys d) : insert d k v = d ++ [(k, v)] := by
  induction d with
  | nil => rfl
  | cons p ps ih =>
      have h1 : ¬ p.1 = k := by
        intro hEq
        exact h (by simp [keys, hEq])
      have h2 : k ∉ keys ps := by
        intro hm
        apply h
        simp only [keys, List.map_cons, List.mem_cons]
        exact Or.inr (by simpa [keys] using hm)
      simp [insert, h1, ih h2]

theorem AList.update_eq_append {α : Type} (d : AList α) (ps : List (String × α))
    (hnd : (List.map Prod.fst ps).Nodup)
    (hdisj : ∀ k ∈ List.map Prod.fst ps, k ∉ keys d) :
    update d ps = d ++ ps := by
  induction ps generalizing d with
  | nil => simp [update_nil]
  | cons p ps ih =>
      simp only [List.map_cons, List.nodup_cons] at hnd
      rw [update_cons, insert_eq_append d p.2 (hdisj p.1 (by simp))]
      have hdisj' : ∀ k ∈ List.map Prod.fst ps,
          k ∉ keys (d ++ [(p.1, p.2)]) := by
        intro k hkmem
        have hknd : k ∉ keys d := hdisj k (by simp [hkmem])
        have hkp : ¬ k = p.1 := by
          intro hEq
          exact hnd.1 (hEq ▸ hkmem)
        intro hcontra
        simp only [keys, List.map_append, List.mem_append] at hcontra
        rcases hcontra with hmem | hmem
        · exact hknd (by simpa [keys] using hmem)
        · simp only [List.map_cons, List.map_nil, List.mem_singleton] at hmem
          exact hkp hmem
      rw [ih (d ++ [(p.1, p.2)]) hnd.2 hdisj', List.append_assoc]
      rfl

theorem AList.keys_insert_of_mem {α : Type} (d : AList α) (k : String) (v : α)
    (hk : k ∈ keys d) : keys (insert d k v) = keys d := by
  induction d with
  | nil => cases hk
  | cons p ps ih =>
      by_cases hp : p.1 = k
      · simp [insert, hp, keys]
      · have h1 : k ∈ keys ps := by
          simp only [keys, List.map_cons, List.mem_cons] at hk
          rcases hk with h | h
          · exact absurd h.symm hp
          · exact h
        simp [insert, hp, keys]
        simpa [keys] using ih h1

theorem AList.keys_insert_nodup {α : Type} (d : AList α) (k : String) (v : α)
    (h : (keys d).Nodup) : (keys (insert d k v)).Nodup := by
  by_cases hk : k ∈ keys d
  · rw [keys_insert_of_mem d k v hk]
    exact h
  · rw [insert_eq_append d v hk]
    have hd : List.Disjoint (keys d) [k] := by
      intro x hx hx'
      rw [List.mem_singleton] at hx'
      exact hk (hx' ▸ hx)
    have hnd : (keys d ++ [k]).Nodup :=
      List.nodup_append.mpr ⟨h, List.nodup_singleton k, hd⟩
    simpa [keys] using hnd

theorem AList.keys_update_nil_nodup {α : Type} (ps : List (String × α)) :
    (keys (update ([] : AList α) ps)).Nodup := by
  suffices h : ∀ d : AList α, (keys d).Nodup → (keys (update d ps)).Nodup by
    exact h [] (by simp [keys])
  induction ps with
  | nil =>
      intro d hd
      simpa [update_nil] using hd
  | cons p ps ih =>
      intro d hd
      rw [update_cons]
      exact ih (insert d p.1 p.2) (keys_insert_nodup d p.1 p.2 hd)

theorem AList.update_append {α : Type} (d : AList α) (ps qs : List (String × α)) :
    update d (ps ++ qs) = update (update d ps) qs := by
  simp [update, List.foldl_append]


theorem keys_mapAt {α : Type} (d : AList α) (k : String) (g : α → α) :
    AList.keys (AList.mapAt d k g) = AList.keys d := by
  induction d with
  | nil => rfl
  | cons p ps ih =>
      by_cases hp : p.1 = k
      · simp [AList.mapAt, AList.keys, hp] at *
        simpa [AList.mapAt, AList.keys] using ih
      · simp [AList.mapAt, AList.keys, hp] at *
        simpa [AList.mapAt, AList.keys] using ih

theorem keys_update_nodup {α : Type} (d : AList α)
    (ps : List (String × α)) (h : (AList.keys d).Nodup) :
    (AList.keys (AList.update d ps)).Nodup := by
  induction ps generalizing d with
  | nil => simpa [AList.update_nil] using h
  | cons p ps ih =>
      rw [AList.update_cons]
      exact ih (AList.insert d p.1 p.2) (AList.keys_insert_nodup d p.1 p.2 h)

theorem mapAt_notMem {α : Type} (d : AList α) {k : String} (g : α → α)
    (h : k ∉ AList.keys d) : AList.mapAt d k g = d := by
  induction d with
  | nil => rfl
  | cons p ps ih =>
      have h1 : ¬ p.1 = k := by
        intro hEq
        exact h (by simp [AList.keys, hEq])
      have h2 : k ∉ AList.keys ps := by
        intro hm
        exact h (by simp [AList.keys] at hm ⊢; exact Or.inr hm)
      simp [AList.mapAt, h1] at *
      simpa [AList.mapAt] using ih h2

theorem mapAt_insert {α : Type} (d : AList α) {k : String} (v : α)
    (g : α → α) (h : (AList.keys d).Nodup) :
    AList.mapAt (AList.insert d k v) k g = AList.insert d k (g v) := by
  induction d with
  | nil => simp [AList.insert, AList.mapAt]
  | cons p ps ih =>
      simp only [AList.keys, List.map_cons, List.nodup_cons] at h
      by_cases hp : p.1 = k
      · subst hp
        have hps : AList.mapAt ps p.1 g = ps :=
          mapAt_notMem ps g (by simpa [AList.keys] using h.1)
        simp [AList.insert, AList.mapAt]
        exact hps
      · simp [AList.insert, AList.mapAt, hp]
        simpa [AList.mapAt] using ih (by simpa [AList.keys] using h.2)

theorem processDocField_eq_update (gen : String → DocField → GenResult)
    (d : AList FormField) (n : String) (df : DocField)
    (h : (AList.keys d).Nodup) :
    processDocField gen d n df = AList.update d (insertsFor gen n df) := by
  cases hg : gen n df with
  | many fs =>
      simp [processDocField, insertsFor, hg, AList.update, List.foldl_map]
  | single f =>
      simp only [processDocField, insertsFor, hg, AList.update_cons,
        AList.update_nil]
      exact mapAt_insert d f _ h

theorem keys_processDocField_nodup (gen : String → DocField → GenResult)
    (d : AList FormField) (n : String) (df : DocField)
    (h : (AList.keys d).Nodup) :
    (AList.keys (processDocField gen d n df)).Nodup := by
  rw [processDocField_eq_update gen d n df h]
  exact keys_update_nodup d _ h

theorem docFold_eq_update (gen : String → DocField → GenResult)
    (vfs : List (String × DocField)) (d : AList FormField)
    (h : (AList.keys d).Nodup) :
    vfs.foldl (fun d p => processDocField gen d p.1 p.2) d
      = AList.update d (docInserts gen vfs) := by
  induction vfs generalizing d with
  | nil => simp [docInserts, AList.update_nil]
  | cons p ps ih =>
      rw [List.foldl_cons, ih (processDocField gen d p.1 p.2)
        (keys_processDocField_nodup gen d p.1 p.2 h),
        processDocField_eq_update gen d p.1 p.2 h]
      rw [show docInserts gen (p :: ps)
          = insertsFor gen p.1 p.2 ++ docInserts gen ps by
        simp [docInserts]]
      rw [AList.update_append]

theorem foldl_optInsert {α : Type} (h : String → Option α)
    (vfs : List String) (d : AList α) :
    vfs.foldl (optInsertStep h) d
      = AList.update d (vfs.filterMap fun n => (h n).map (fun v => (n, v))) := by
  induction vfs generalizing d with
  | nil => rfl
  | cons n ns ih =>
      cases hn : h n with
      | none => simp [List.foldl_cons, optInsertStep, hn, ih]
      | some v =>
          simp [List.foldl_cons, optInsertStep, hn, ih, AList.update_cons]

theorem keys_filterMap_opt {α : Type} (h : String → Option α)
    (vfs : List String) :
    (vfs.filterMap fun n => (h n).map (fun v => (n, v))).map Prod.fst
      = vfs.filter (fun n => (h n).isSome) := by
  induction vfs with
  | nil => rfl
  | cons n ns ih =>
      cases hn : h n with
      | none => simp [List.filterMap_cons, hn, List.filter_cons, ih]
      | some v => simp [List.filterMap_cons, hn, List.filter_cons, ih]

theorem objectDataOf_eq_update (dc : DocSchema) (vfs : List String)
    (inst : DocInstance) :
    objectDataOf dc vfs inst = AList.update [] (entryPairs dc inst vfs) := by
  have hbody : (fun (od : AList PyVal) n =>
      match AList.lookup inst.attrs n with
      | none => od
      | some fd =>
          match (if !dc.dynamic then some dc.flds else dc.dflds) with
          | none => od
          | some fl =>
              AList.insert od n
                (match AList.lookup fl n with
                  | some cf =>
                      if cf.isRef then
                        (if pyTruthy fd then pyRefIdStr fd else fd)
                      else fd
                  | none => fd))
      = optInsertStep (entryVal dc inst) := by
    funext od n
    unfold optInsertStep entryVal
    cases hfd : AList.lookup inst.attrs n with
    | none => rfl
    | some fd =>
        cases hfl : (if !dc.dynamic then some dc.flds else dc.dflds) with
        | none => rfl
        | some fl => rfl
  rw [objectDataOf, hbody, foldl_optInsert (entryVal dc inst) vfs [],
    entryPairs]

theorem lookup_objectDataOf (dc : DocSchema) {vfs : List String}
    (inst : DocInstance) (hnd : vfs.Nodup) {n : String} (hn : n ∈ vfs) :
    AList.lookup (objectDataOf dc vfs inst) n = entryVal dc inst n := by
  rw [objectDataOf_eq_update dc vfs inst]
  have hkeys : (entryPairs dc inst vfs).map Prod.fst
      = vfs.filter (fun k => (entryVal dc inst k).isSome) :=
    keys_filterMap_opt (entryVal dc inst) vfs
  cases hv : entryVal dc inst n with
  | none =>
      have hnk : n ∉ (entryPairs dc inst vfs).map Prod.fst := by
        rw [hkeys]
        intro hmem
        have := List.of_mem_filter hmem
        simp [hv] at this
      rw [AList.lookup_update_notMem [] (entryPairs dc inst vfs) hnk]
      rfl
  | some v =>
      have hmem : (n, v) ∈ entryPairs dc inst vfs := by
        apply List.mem_filterMap.mpr
        exact ⟨n, hn, by simp [hv]⟩
      have hndk : ((entryPairs dc inst vfs).map Prod.fst).Nodup := by
        rw [hkeys]
        exact hnd.filter _
      exact AList.lookup_update_mem [] hndk hmem

theorem foldl_setattr (vfs : List String) (g : String → PyVal)
    (inst : DocInstance) :
    vfs.foldl (fun i n =>
        { i with attrs := AList.insert i.attrs n (g n) }) inst
      = { inst with
          attrs := AList.update inst.attrs (vfs.map fun n => (n, g n)) } := by
  induction vfs generalizing inst with
  | nil => simp [AList.update_nil]
  | cons n ns ih =>
      rw [List.foldl_cons,
        ih { inst with attrs := AList.insert inst.attrs n (g n) }]
      simp [AList.update_cons]

theorem rev_foldl_prepend (bases : List (AList FormField))
    (init : List (String × FormField)) :
    (bases.reverse).foldl (fun fs b => b ++ fs) init
      = basesFlat bases ++ init := by
  induction bases generalizing init with
  | nil => simp [basesFlat]
  | cons b bs ih =>
      simp [List.reverse_cons, List.foldl_append, ih, basesFlat,
        List.append_assoc]

theorem collectBaseFields_eq (attrs : AList ClassAttr)
    (bases : List (AList FormField)) :
    collectBaseFields attrs bases
      = AList.update []
          (basesFlat bases
            ++ List.insertionSort fLeB (declaredFieldsOf attrs)) := by
  simp only [collectBaseFields]
  rw [rev_foldl_prepend]

theorem keys_collectBaseFields_nodup (attrs : AList ClassAttr)
    (bases : List (AList FormField)) :
    (AList.keys (collectBaseFields attrs bases)).Nodup := by
  simp only [collectBaseFields]
  exact AList.keys_update_nil_nodup _

theorem lookup_metaclassNew_doc (gen : String → DocField → GenResult)
    (attrs : AList ClassAttr) (bases : List (AList FormField))
    (m : MetaInfo) {k : String} {v : FormField}
    (hnd : ((docInserts gen m.validFields).map Prod.fst).Nodup)
    (hmem : (k, v) ∈ docInserts gen m.validFields)
    (hbase : k ∉ AList.keys (collectBaseFields attrs bases)) :
    AList.lookup (metaclassNew gen attrs bases (some m)).base_fields k
      = some v := by
  simp only [metaclassNew]
  rw [AList.lookup_update_notMem _ _ hbase,
    docFold_eq_update gen m.validFields [] (by simp [AList.keys])]
  exact AList.lookup_update_mem [] hnd hmem

/-- C4: on a class whose field names do not collide, the metaclass
removes the declared forms.Field attributes from the class dict,
collects them into base_fields sorted by creation_counter ascending, and
places the base_fields inherited from base classes in front of the newly
declared fields. -/
theorem c4_field_collection (gen : String → DocField → GenResult)
    (attrs : AList ClassAttr) (bases : List (AList FormField))
    (hnd : ((basesFlat bases
        ++ List.insertionSort fLeB (declaredFieldsOf attrs)).map
          Prod.fst).Nodup) :
    (metaclassNew gen attrs bases none).attrsRest
      = attrs.filter (fun p => !(isFieldAttr p.2)) ∧
    (metaclassNew gen attrs bases none).base_fields
      = basesFlat bases ++ List.insertionSort fLeB (declaredFieldsOf attrs) ∧
    List.Sorted fLeB
      (List.drop (basesFlat bases).length
        (metaclassNew gen attrs bases none).base_fields) := by
  have hbf : (metaclassNew gen attrs bases none).base_fields
      = basesFlat bases
        ++ List.insertionSort fLeB (declaredFieldsOf attrs) := by
    simp only [metaclassNew]
    rw [collectBaseFields_eq,
      AList.update_eq_append [] _ hnd (by intro k _; simp [AList.keys])]
    simp
  refine ⟨rfl, hbf, ?_⟩
  rw [hbf, List.drop_left]
  exact List.sorted_insertionSort fLeB _

/-- Witness for C4 on a concrete class: one base class field, two
declared fields out of counter order, one non-field attribute. -/
theorem c4_field_collection_witness :
    (metaclassNew (fun _ _ => .single ⟨0, "", .base 0⟩)
        [("b", .fieldAttr ⟨2, "B", .base 0⟩), ("x", .other 0),
         ("a", .fieldAttr ⟨1, "A", .base 1⟩)]
        [[("z", ⟨0, "Z", .base 9⟩)]] none).attrsRest
      = List.filter (fun p => !(isFieldAttr p.2))
          [("b", .fieldAttr ⟨2, "B", .base 0⟩), ("x", .other 0),
           ("a", .fieldAttr ⟨1, "A", .base 1⟩)] ∧
    (metaclassNew (fun _ _ => .single ⟨0, "", .base 0⟩)
        [("b", .fieldAttr ⟨2, "B", .base 0⟩), ("x", .other 0),
         ("a", .fieldAttr ⟨1, "A", .base 1⟩)]
        [[("z", ⟨0, "Z", .base 9⟩)]] none).base_fields
      = basesFlat [[("z", ⟨0, "Z", .base 9⟩)]]
        ++ List.insertionSort fLeB (declaredFieldsOf
            [("b", .fieldAttr ⟨2, "B", .base 0⟩), ("x", .other 0),
             ("a", .fieldAttr ⟨1, "A", .base 1⟩)]) ∧
    List.Sorted fLeB
      (List.drop (basesFlat [[("z", ⟨0, "Z", .base 9⟩)]]).length
        (metaclassNew (fun _ _ => .single ⟨0, "", .base 0⟩)
          [("b", .fieldAttr ⟨2, "B", .base 0⟩), ("x", .other 0),
           ("a", .fieldAttr ⟨1, "A", .base 1⟩)]
          [[("z", ⟨0, "Z", .base 9⟩)]] none).base_fields) :=
  c4_field_collection (fun _ _ => .single ⟨0, "", .base 0⟩)
    [("b", .fieldAttr ⟨2, "B", .base 0⟩), ("x", .other 0),
     ("a", .fieldAttr ⟨1, "A", .base 1⟩)]
    [[("z", ⟨0, "Z", .base 9⟩)]] (by decide)

/-- C5: a form field present in the collected base_fields (declared on
the class or inherited) is what base_fields holds for its name after
the document-field pass: generated document fields never shadow it,
because doc_fields.update(base_fields) writes the collected fields over
the generated ones. -/
theorem c5_declared_wins (gen : String → DocField → GenResult)
    (attrs : AList ClassAttr) (bases : List (AList FormField))
    (m : MetaInfo) {n : String} {v : FormField}
    (hmem : (n, v) ∈ collectBaseFields attrs bases) :
    AList.lookup (metaclassNew gen attrs bases (some m)).base_fields n
      = some v := by
  simp only [metaclassNew]
  exact AList.lookup_update_mem _
    (keys_collectBaseFields_nodup attrs bases) hmem

/-- Witness for C5: a declared field and a generated document field
share the name, and base_fields keeps the declared one. -/
theorem c5_declared_wins_witness :
    AList.lookup (metaclassNew (fun _ _ => .single ⟨50, "G", .base 3⟩)
        [("name", .fieldAttr ⟨1, "N", .base 0⟩)] []
        (some ⟨[("name", ⟨7⟩)]⟩)).base_fields "name"
      = some ⟨1, "N", .base 0⟩ :=
  c5_declared_wins (fun _ _ => .single ⟨50, "G", .base 3⟩)
    [("name", .fieldAttr ⟨1, "N", .base 0⟩)] [] ⟨[("name", ⟨7⟩)]⟩
    (by decide)

/-- Counterexample to C1 as stated: a declared field with the same name
shadows the generated one, so the valid document field "name" does not
put a generator-produced form field into base_fields at all; the only
entry is the declared field, which differs from the generated field both
raw and clean-wrapped. -/
theorem c1_counterexample :
    (metaclassNew (fun _ _ => .single ⟨100, "G", .base 1⟩)
        [("name", .fieldAttr ⟨1, "N", .base 0⟩)] []
        (some ⟨[("name", ⟨7⟩)]⟩)).base_fields
      = [("name", ⟨1, "N", .base 0⟩)] ∧
    (⟨1, "N", .base 0⟩ : FormField) ≠ ⟨100, "G", .base 1⟩ ∧
    (⟨1, "N", .base 0⟩ : FormField) ≠ wrapField ⟨100, "G", .base 1⟩ ⟨7⟩ := by
  decide

/-- C1 as amended: a valid document field whose generated names collide
neither with the collected (declared or inherited) field names nor with
the names of other generated fields does put its generator-produced
form-field instances into base_fields: a single result under the
document field name (clean-wrapped in place), each dict sub-field under
its lowercased label. -/
theorem c1_generated_fields (gen : String → DocField → GenResult)
    (attrs : AList ClassAttr) (bases : List (AList FormField))
    (m : MetaInfo) (n : String) (df : DocField)
    (hmem : (n, df) ∈ m.validFields)
    (hnd : ((docInserts gen m.validFields).map Prod.fst).Nodup) :
    (∀ f, gen n df = .single f →
        n ∉ AList.keys (collectBaseFields attrs bases) →
        AList.lookup (metaclassNew gen attrs bases (some m)).base_fields n
          = some (wrapField f df)) ∧
    (∀ fs f, gen n df = .many fs → f ∈ fs →
        pyLower f.label ∉ AList.keys (collectBaseFields attrs bases) →
        AList.lookup (metaclassNew gen attrs bases (some m)).base_fields
          (pyLower f.label) = some f) := by
  constructor
  · intro f hgen hbase
    apply lookup_metaclassNew_doc gen attrs bases m hnd ?_ hbase
    apply List.mem_flatMap.mpr
    exact ⟨(n, df), hmem, by simp [insertsFor, hgen]⟩
  · intro fs f hgen hf hbase
    apply lookup_metaclassNew_doc gen attrs bases m hnd ?_ hbase
    apply List.mem_flatMap.mpr
    refine ⟨(n, df), hmem, ?_⟩
    simp only [insertsFor, hgen]
    exact List.mem_map_of_mem _ hf

/-- Witness for the amended C1, covering both generator shapes on
concrete inputs with no name collisions. -/
theorem c1_generated_fields_witness :
    AList.lookup (metaclassNew (fun _ _ => .single ⟨5, "L", .base 2⟩)
        [] [] (some ⟨[("age", ⟨3⟩)]⟩)).base_fields "age"
      = some (wrapField ⟨5, "L", .base 2⟩ ⟨3⟩) ∧
    AList.lookup (metaclassNew (fun _ _ => .many [⟨6, "Sub", .base 4⟩])
        [] [] (some ⟨[("kids", ⟨9⟩)]⟩)).base_fields (pyLower "Sub")
      = some ⟨6, "Sub", .base 4⟩ :=
  ⟨(c1_generated_fields (fun _ _ => .single ⟨5, "L", .base 2⟩) [] []
      ⟨[("age", ⟨3⟩)]⟩ "age" ⟨3⟩ (by decide) (by decide)).1
      ⟨5, "L", .base 2⟩ rfl (by decide),
   (c1_generated_fields (fun _ _ => .many [⟨6, "Sub", .base 4⟩]) [] []
      ⟨[("kids", ⟨9⟩)]⟩ "kids" ⟨9⟩ (by decide) (by decide)).2
      [⟨6, "Sub", .base 4⟩] ⟨6, "Sub", .base 4⟩ rfl (by decide) (by decide)⟩

/-- Counterexample to C2 as stated: when the generator returns a dict,
the sub-fields are stored without any clean wrapping (the wrapping at
forms.py lines 57-58 sits in the else branch only), so the stored clean
is the raw one and in particular not the wrapper around it with the
document field validator. -/
theorem c2_counterexample :
    (metaclassNew (fun _ _ => .many [⟨6, "Sub", .base 3⟩]) [] []
        (some ⟨[("x", ⟨9⟩)]⟩)).base_fields
      = [("sub", ⟨6, "Sub", .base 3⟩)] ∧
    (CleanFn.base 3) ≠ CleanFn.wrap (.base 3) 9 := by
  decide

/-- C2 as amended: a single generated field has its clean method wrapped
by mongoengine_validate_wrapper with the document field validator, while
dict-generated sub-fields keep their clean method unwrapped (under the
same no-collision conditions as C1). -/
theorem c2_clean_wrapping (gen : String → DocField → GenResult)
    (attrs : AList ClassAttr) (bases : List (AList FormField))
    (m : MetaInfo) (n : String) (df : DocField)
    (hmem : (n, df) ∈ m.validFields)
    (hnd : ((docInserts gen m.validFields).map Prod.fst).Nodup) :
    (∀ f, gen n df = .single f →
        n ∉ AList.keys (collectBaseFields attrs bases) →
        (AList.lookup (metaclassNew gen attrs bases (some m)).base_fields
            n).map FormField.clean
          = some (CleanFn.wrap f.clean df.validateId)) ∧
    (∀ fs f, gen n df = .many fs → f ∈ fs →
        pyLower f.label ∉ AList.keys (collectBaseFields attrs bases) →
        (AList.lookup (metaclassNew gen attrs bases (some m)).base_fields
            (pyLower f.label)).map FormField.clean
          = some f.clean) := by
  constructor
  · intro f hgen hbase
    have hl : AList.lookup (metaclassNew gen attrs bases (some m)).base_fields
        n = some (wrapField f df) := by
      apply lookup_metaclassNew_doc gen attrs bases m hnd ?_ hbase
      apply List.mem_flatMap.mpr
      exact ⟨(n, df), hmem, by simp [insertsFor, hgen]⟩
    rw [hl]
    rfl
  · intro fs f hgen hf hbase
    have hl : AList.lookup (metaclassNew gen attrs bases (some m)).base_fields
        (pyLower f.label) = some f := by
      apply lookup_metaclassNew_doc gen attrs bases m hnd ?_ hbase
      apply List.mem_flatMap.mpr
      refine ⟨(n, df), hmem, ?_⟩
      simp only [insertsFor, hgen]
      exact List.mem_map_of_mem _ hf
    rw [hl]
    rfl

/-- Witness for the amended C2: the single-field clean is wrapped with
the validator tag, the dict sub-field clean stays raw. -/
theorem c2_clean_wrapping_witness :
    (AList.lookup (metaclassNew (fun _ _ => .single ⟨5, "L", .base 2⟩)
        [] [] (some ⟨[("age", ⟨3⟩)]⟩)).base_fields "age").map
          FormField.clean
      = some (CleanFn.wrap (.base 2) 3) ∧
    (AList.lookup (metaclassNew (fun _ _ => .many [⟨6, "Sub", .base 4⟩])
        [] [] (some ⟨[("kids", ⟨9⟩)]⟩)).base_fields
          (pyLower "Sub")).map FormField.clean
      = some (CleanFn.base 4) :=
  ⟨(c2_clean_wrapping (fun _ _ => .single ⟨5, "L", .base 2⟩) [] []
      ⟨[("age", ⟨3⟩)]⟩ "age" ⟨3⟩ (by decide) (by decide)).1
      ⟨5, "L", .base 2⟩ rfl (by decide),
   (c2_clean_wrapping (fun _ _ => .many [⟨6, "Sub", .base 4⟩]) [] []
      ⟨[("kids", ⟨9⟩)]⟩ "kids" ⟨9⟩ (by decide) (by decide)).2
      [⟨6, "Sub", .base 4⟩] ⟨6, "Sub", .base 4⟩ rfl (by decide) (by decide)⟩

theorem map_fst_map_pair {α : Type} (g : String → α) (l : List String) :
    (l.map fun k => (k, g k)).map Prod.fst = l := by
  induction l with
  | nil => rfl
  | cons a l ih =>
      simp only [List.map_cons]
      exact congrArg (a :: ·) ih

theorem save_attrs_lookup (vfs : List String) (cleaned : AList PyVal)
    (inst : DocInstance) (commit : Bool) (hnd : vfs.Nodup) {n : String}
    (hn : n ∈ vfs) :
    AList.lookup (mongoFormSave vfs cleaned inst commit).attrs n
      = some (cleanedGet cleaned n) := by
  have hkeys : ((vfs.map fun k => (k, cleanedGet cleaned k)).map
      Prod.fst).Nodup := by
    rw [map_fst_map_pair (fun k => cleanedGet cleaned k) vfs]
    exact hnd
  have hmem : (n, cleanedGet cleaned n)
      ∈ vfs.map fun k => (k, cleanedGet cleaned k) :=
    List.mem_map_of_mem _ hn
  have hlook := AList.lookup_update_mem inst.attrs hkeys hmem
  unfold mongoFormSave
  rw [foldl_setattr vfs (fun k => cleanedGet cleaned k) inst]
  cases commit <;> simpa using hlook

theorem save_savedCount (vfs : List String) (cleaned : AList PyVal)
    (inst : DocInstance) (commit : Bool) :
    (mongoFormSave vfs cleaned inst commit).savedCount
      = inst.savedCount + (if commit then 1 else 0) := by
  unfold mongoFormSave
  rw [foldl_setattr vfs (fun k => cleanedGet cleaned k) inst]
  cases commit <;> simp

/-- C3: save writes cleaned_data.get(name) onto the instance for every
valid document field, calls instance.save() exactly when commit is
true (the save-call counter of the returned instance grows by one on
commit and is unchanged otherwise), and returns that instance. -/
theorem c3_save (vfs : List String) (cleaned : AList PyVal)
    (inst : DocInstance) (commit : Bool) (hnd : vfs.Nodup) {n : String}
    (hn : n ∈ vfs) :
    AList.lookup (mongoFormSave vfs cleaned inst commit).attrs n
      = some (cleanedGet cleaned n) ∧
    (mongoFormSave vfs cleaned inst commit).savedCount
      = inst.savedCount + (if commit then 1 else 0) :=
  ⟨save_attrs_lookup vfs cleaned inst commit hnd hn,
   save_savedCount vfs cleaned inst commit⟩

/-- Witness for C3 on concrete data, with commit set. -/
theorem c3_save_witness :
    AList.lookup (mongoFormSave ["a", "b"] [("a", .vStr "x")]
        ⟨⟨false, [], none⟩, [("a", .vInt 1)], false, false, 0⟩
        true).attrs "a"
      = some (cleanedGet [("a", .vStr "x")] "a") ∧
    (mongoFormSave ["a", "b"] [("a", .vStr "x")]
        ⟨⟨false, [], none⟩, [("a", .vInt 1)], false, false, 0⟩
        true).savedCount
      = (⟨⟨false, [], none⟩, [("a", .vInt 1)], false, false, 0⟩ :
          DocInstance).savedCount + (if true then 1 else 0) :=
  c3_save ["a", "b"] [("a", .vStr "x")]
    ⟨⟨false, [], none⟩, [("a", .vInt 1)], false, false, 0⟩ true
    (by decide) (by decide)

/-- C8: with commit=False the bound instance is still mutated: every
valid document field is overwritten with cleaned_data.get(name), which
is None for names absent from cleaned_data; nothing is persisted (the
save-call counter is unchanged); and whenever the stored value differs
from the overwriting one, the returned instance differs from the bound
one. -/
theorem c8_save_no_commit (vfs : List String) (cleaned : AList PyVal)
    (inst : DocInstance) (hnd : vfs.Nodup) {n : String} (hn : n ∈ vfs) :
    AList.lookup (mongoFormSave vfs cleaned inst false).attrs n
      = some (cleanedGet cleaned n) ∧
    (AList.lookup cleaned n = none →
      AList.lookup (mongoFormSave vfs cleaned inst false).attrs n
        = some .vNone) ∧
    (mongoFormSave vfs cleaned inst false).savedCount = inst.savedCount ∧
    (AList.lookup inst.attrs n ≠ some (cleanedGet cleaned n) →
      mongoFormSave vfs cleaned inst false ≠ inst) := by
  have h1 := save_attrs_lookup vfs cleaned inst false hnd hn
  refine ⟨h1, ?_, ?_, ?_⟩
  · intro habsent
    rw [h1]
    simp [cleanedGet, habsent]
  · simpa using save_savedCount vfs cleaned inst false
  · intro hne heq
    apply hne
    rw [← heq]
    exact h1

/-- Witness for C8: a field not in cleaned_data is overwritten with
None, changing the instance although commit is false. -/
theorem c8_save_no_commit_witness :
    AList.lookup (mongoFormSave ["a"] []
        ⟨⟨false, [], none⟩, [("a", .vInt 5)], false, false, 0⟩
        false).attrs "a"
      = some (cleanedGet [] "a") ∧
    (AList.lookup ([] : AList PyVal) "a" = none →
      AList.lookup (mongoFormSave ["a"] []
          ⟨⟨false, [], none⟩, [("a", .vInt 5)], false, false, 0⟩
          false).attrs "a"
        = some .vNone) ∧
    (mongoFormSave ["a"] []
        ⟨⟨false, [], none⟩, [("a", .vInt 5)], false, false, 0⟩
        false).savedCount
      = (⟨⟨false, [], none⟩, [("a", .vInt 5)], false, false, 0⟩ :
          DocInstance).savedCount ∧
    (AList.lookup (⟨⟨false, [], none⟩, [("a", .vInt 5)], false, false, 0⟩ :
          DocInstance).attrs "a" ≠ some (cleanedGet [] "a") →
      mongoFormSave ["a"] []
          ⟨⟨false, [], none⟩, [("a", .vInt 5)], false, false, 0⟩ false
        ≠ ⟨⟨false, [], none⟩, [("a", .vInt 5)], false, false, 0⟩) :=
  c8_save_no_commit ["a"] []
    ⟨⟨false, [], none⟩, [("a", .vInt 5)], false, false, 0⟩
    (by decide) (by decide)

/-- C7: constructing a MongoForm without an instance raises ValueError
when the Meta document class is None, so no instance is attached; with a
document class, the form gets a freshly constructed document of that
class with _adding True, and the object data of that branch is empty. -/
theorem c7_init_no_instance (vfs : List String)
    (ini : Option (AList PyVal)) (dc : DocSchema) :
    mongoFormInit none vfs none ini = .error .valueError ∧
    mongoFormInit (some dc) vfs none none
      = .ok ((⟨dc, [], true, true, 0⟩ : DocInstance), []) :=
  ⟨rfl, rfl⟩

/-- C6: initialising a MongoForm with an existing instance marks it as
not adding, builds object data out of the instance values of the valid
document fields (per-field value given by entryVal, which skips fields
the instance lacks and turns truthy ReferenceField data into the string
of the referenced id), and lets caller-supplied initial entries override
the instance values. -/
theorem c6_instance_object_data (dc : DocSchema) (vfs : List String)
    (inst : DocInstance) (ini : Option (AList PyVal))
    (inst2 : DocInstance) (od : AList PyVal)
    (hrun : mongoFormInit (some dc) vfs (some inst) ini = .ok (inst2, od))
    (hnd : vfs.Nodup) :
    inst2.adding = false ∧
    (∀ n, n ∈ vfs →
        (∀ il, ini = some il → n ∉ List.map Prod.fst il) →
        AList.lookup od n = entryVal dc inst n) ∧
    (∀ il n v, ini = some il → (List.map Prod.fst il).Nodup →
        (n, v) ∈ il → AList.lookup od n = some v) ∧
    (∀ n i, n ∈ vfs → dc.dynamic = false →
        (∀ il, ini = some il → n ∉ List.map Prod.fst il) →
        AList.lookup inst.attrs n = some (.vDocRef i) →
        (AList.lookup dc.flds n).map DocClsField.isRef = some true →
        AList.lookup od n = some (.vStr i)) := by
  have hr : mongoFormInit (some dc) vfs (some inst) ini
      = .ok ({ inst with adding := false },
          applyInitialData
            (objectDataOf dc vfs { inst with adding := false }) ini) := rfl
  rw [hr] at hrun
  simp only [Except.ok.injEq, Prod.mk.injEq] at hrun
  obtain ⟨hinst, hod⟩ := hrun
  subst hinst
  subst hod
  have hmain : ∀ n, n ∈ vfs →
      (∀ il, ini = some il → n ∉ List.map Prod.fst il) →
      AList.lookup (applyInitialData
          (objectDataOf dc vfs { inst with adding := false }) ini) n
        = entryVal dc inst n := by
    intro n hn hno
    cases ini with
    | none =>
        exact lookup_objectDataOf dc { inst with adding := false } hnd hn
    | some il =>
        show AList.lookup (AList.update _ il) n = _
        rw [AList.lookup_update_notMem _ il (hno il rfl)]
        exact lookup_objectDataOf dc { inst with adding := false } hnd hn
  refine ⟨rfl, hmain, ?_, ?_⟩
  · intro il n v hini hilnd hmem
    subst hini
    exact AList.lookup_update_mem _ hilnd hmem
  · intro n i hn hdynF hno hattr href
    rcases Option.map_eq_some'.mp href with ⟨cf, hcf, hcfr⟩
    rw [hmain n hn hno]
    simp [entryVal, hattr, hdynF, hcf, hcfr, pyTruthy, pyRefIdStr]

/-- Witness for C6: a non-dynamic document with a truthy ReferenceField
value yields the string of the referenced id in the object data. -/
theorem c6_instance_object_data_witness :
    AList.lookup (applyInitialData
        (objectDataOf ⟨false, [("r", ⟨true, false⟩)], none⟩ ["r"]
          { (⟨⟨false, [("r", ⟨true, false⟩)], none⟩,
              [("r", .vDocRef "42")], true, false, 0⟩ : DocInstance) with
            adding := false }) none) "r"
      = some (.vStr "42") :=
  (c6_instance_object_data ⟨false, [("r", ⟨true, false⟩)], none⟩ ["r"]
      ⟨⟨false, [("r", ⟨true, false⟩)], none⟩,
        [("r", .vDocRef "42")], true, false, 0⟩ none _ _ rfl
      (by decide)).2.2.2 "r" "42" (by decide) rfl
    (fun il h => nomatch h) (by decide) (by decide)

theorem evalUniqueMessage_eq :
    evalUniqueMessage = .error (.nameError "_") := rfl

theorem validateUniqueAux_error (exclude : List String)
    (hasDup : String → Bool) :
    ∀ (ps : AList DocClsField) (errs : List String),
      (∃ p, p ∈ ps ∧ p.2.unique = true ∧
        exclude.contains p.1 = false ∧ hasDup p.1 = true) →
      validateUniqueAux exclude hasDup ps errs
        = .error (.nameError "_") := by
  intro ps
  induction ps with
  | nil =>
      rintro errs ⟨p, hp, _⟩
      cases hp
  | cons q ps ih =>
      rintro errs ⟨p, hp, hu, he, hd⟩
      rcases List.mem_cons.mp hp with rfl | hp'
      · have hcond : (p.2.unique && !(exclude.contains p.1)) = true := by
          rw [hu, he]
          rfl
        simp only [validateUniqueAux, hcond, hd, if_true,
          evalUniqueMessage_eq]
      · cases hcb : (q.2.unique && !(exclude.contains q.1)) with
        | false =>
            simp only [validateUniqueAux, hcb, Bool.false_eq_true,
              if_false]
            exact ih errs ⟨p, hp', hu, he, hd⟩
        | true =>
            cases hdq : hasDup q.1 with
            | false =>
                simp only [validateUniqueAux, hcb, hdq, if_true,
                  Bool.false_eq_true, if_false]
                exact ih errs ⟨p, hp', hu, he, hd⟩
            | true =>
                simp only [validateUniqueAux, hcb, hdq, if_true,
                  evalUniqueMessage_eq]

theorem validateUniqueAux_ok (exclude : List String)
    (hasDup : String → Bool) :
    ∀ (ps : AList DocClsField) (errs es : List String),
      validateUniqueAux exclude hasDup ps errs = .ok es →
      es = errs ∧ ∀ p, p ∈ ps → p.2.unique = true →
        exclude.contains p.1 = false → hasDup p.1 = false := by
  intro ps
  induction ps with
  | nil =>
      intro errs es h
      simp only [validateUniqueAux, Except.ok.injEq] at h
      exact ⟨h.symm, by intro p hp; cases hp⟩
  | cons q ps ih =>
      intro errs es h
      cases hcb : (q.2.unique && !(exclude.contains q.1)) with
      | false =>
          simp only [validateUniqueAux, hcb, Bool.false_eq_true,
            if_false] at h
          obtain ⟨h1, h2⟩ := ih errs es h
          refine ⟨h1, ?_⟩
          intro p hp hu he
          rcases List.mem_cons.mp hp with rfl | hp'
          · rw [hu, he] at hcb
            cases hcb
          · exact h2 p hp' hu he
      | true =>
          cases hdq : hasDup q.1 with
          | true =>
              simp only [validateUniqueAux, hcb, hdq, if_true,
                evalUniqueMessage_eq] at h
              cases h
          | false =>
              simp only [validateUniqueAux, hcb, hdq, if_true,
                Bool.false_eq_true, if_false] at h
              obtain ⟨h1, h2⟩ := ih errs es h
              refine ⟨h1, ?_⟩
              intro p hp hu he
              rcases List.mem_cons.mp hp with rfl | hp'
              · exact hdq
              · exact h2 p hp' hu he

/-- C9: the names used to build the duplicate message of
validate_unique are neither imported nor defined in the module nor
builtins, so as soon as some unique, non-excluded field has a duplicate
the method raises NameError (on the first name looked up, the
translation callable); validate_unique completes with an error list only
when no checked field has a duplicate, and that list is empty. -/
theorem c9_validate_unique_name_error (instFlds : AList DocClsField)
    (exclude : List String) (hasDup : String → Bool) :
    (nameResolves "_" = false ∧ nameResolves "capfirst" = false ∧
      nameResolves "pretty_name" = false) ∧
    ((∃ p, p ∈ instFlds ∧ p.2.unique = true ∧
        exclude.contains p.1 = false ∧ hasDup p.1 = true) →
      validateUnique instFlds exclude hasDup
        = .error (.nameError "_")) ∧
    (∀ es, validateUnique instFlds exclude hasDup = .ok es →
      es = [] ∧ ∀ p, p ∈ instFlds → p.2.unique = true →
        exclude.contains p.1 = false → hasDup p.1 = false) := by
  refine ⟨by decide, ?_, ?_⟩
  · intro hex
    exact validateUniqueAux_error exclude hasDup instFlds [] hex
  · intro es h
    exact validateUniqueAux_ok exclude hasDup instFlds [] es h

/-- Witness for C9: one unique field with a duplicate makes
validate_unique raise NameError on the missing translation name. -/
theorem c9_validate_unique_name_error_witness :
    validateUnique [("email", ⟨false, true⟩)] [] (fun _ => true)
      = .error (.nameError "_") :=
  (c9_validate_unique_name_error [("email", ⟨false, true⟩)] []
      (fun _ => true)).2.1
    ⟨("email", ⟨false, true⟩), by decide, rfl, rfl, rfl⟩

/-- C10: the formset constructor discards any caller-supplied prefix
argument (the result does not depend on it) and always passes the
lowercased document class name as the prefix to BaseFormSet.__init__;
kwargs cannot carry a prefix key because prefix is a named parameter. -/
theorem c10_formset_prefix_forced (docName : String)
    (data files auto_id iniData : PyVal) (p1 p2 : Option PyVal)
    (kwargs : AList PyVal)
    (hk : "prefix" ∉ List.map Prod.fst kwargs) :
    formSetInitKwargs docName data files auto_id p1 iniData kwargs
      = formSetInitKwargs docName data files auto_id p2 iniData kwargs ∧
    AList.lookup
        (formSetInitKwargs docName data files auto_id p1 iniData kwargs)
        "prefix"
      = some (.vStr (pyLower docName)) := by
  constructor
  · rfl
  · show AList.lookup (AList.update _ kwargs) "prefix" = _
    rw [AList.lookup_update_notMem _ kwargs hk]
    rfl

/-- Witness for C10: a caller-supplied prefix value is ignored and the
prefix handed on is the lowercased document name. -/
theorem c10_formset_prefix_forced_witness :
    formSetInitKwargs "Channel" .vNone .vNone (.vStr "id_%s")
        (some (.vStr "caller")) .vNone [("data", .vStr "payload")]
      = formSetInitKwargs "Channel" .vNone .vNone (.vStr "id_%s")
        none .vNone [("data", .vStr "payload")] ∧
    AList.lookup (formSetInitKwargs "Channel" .vNone .vNone
        (.vStr "id_%s") (some (.vStr "caller")) .vNone
        [("data", .vStr "payload")]) "prefix"
      = some (.vStr (pyLower "Channel")) :=
  c10_formset_prefix_forced "Channel" .vNone .vNone (.vStr "id_%s")
    .vNone (some (.vStr "caller")) none [("data", .vStr "payload")]
    (by decide)

end Mongoforms
